import Mathlib

/-!
Shallow embedding of the group-chat message-routing and reminder-scheduling
core of the Keke repository (`src/models.py`, `src/group_chat.py`,
`src/reminder.py`), together with theorems settling the specification
claims about it.

Conventions of the embedding:
* Python lists become `List`; the `readers`/`receivers` fields of
  `MessageRecord` are Python lists of strings (`models.py`), so they are
  `List String` here, not finite sets.
* `datetime` values become `Nat` timestamps; `datetime.now()` at a call
  site becomes an explicit `now : Nat` argument.
* Mutation of shared state becomes explicit state passing: a Python method
  that mutates `self.chat_history` or the `readers` list of a record is a Lean
  function returning the updated value.
* The opaque condition callable of a condition reminder is an abstract
  value of a type `π` evaluated by an environment `eval : π → Nat → Bool`
  (the `Nat` is the current tick time); the asynchronous
  `run` outcome (returns a string or raises) is `Except Unit String`.
-/

/-- Embeds `models.MessageRecord` (`src/models.py`): sender, message text,
creation timestamp, the list of mentioned receivers and the mutable list of
readers.  `receivers` and `readers` are Python lists, kept as `List String`. -/
structure MessageRecord where
  sender : String
  message : String
  timestamp : Nat
  receivers : List String
  readers : List String
deriving DecidableEq

/-- Word characters of the regex `\w` (ASCII range): letters, digits and
underscore. -/
def isWordChar (c : Char) : Bool := c.isAlphanum || c = '_'

/-- Embeds `re.findall(r'@(\w+)', message)` on a list of characters: scan
left to right; at each `'@'` take the longest following run of word
characters; a nonempty run is a match (the captured group, `'@'` stripped)
and scanning resumes after it. -/
def parseMentionsAux : List Char → List String
  | [] => []
  | c :: rest =>
    if c = '@' then
      if (rest.takeWhile isWordChar).isEmpty then parseMentionsAux rest
      else String.mk (rest.takeWhile isWordChar) ::
        parseMentionsAux (rest.dropWhile isWordChar)
    else parseMentionsAux rest
termination_by l => l.length
decreasing_by
  · simp
  · simp only [List.length_cons]
    exact Nat.lt_succ_of_le (List.dropWhile_sublist isWordChar).length_le
  · simp

/-- Embeds `GroupChat._parse_mentions` (`src/group_chat.py`): extract the
`@mention` tokens of a message, in order of occurrence. -/
def parseMentions (s : String) : List String := parseMentionsAux s.data

/-- Embeds `GroupChat._send_to_chat` (`src/group_chat.py`): parse the
mentions of `message`; if there is at least one, append a fresh record to
the chat history and return `true`, otherwise return `false` and leave the
history unchanged. -/
def sendToChat (senderId message : String) (now : Nat)
    (chatHistory : List MessageRecord) : Bool × List MessageRecord :=
  let receivers := parseMentions message
  if receivers.isEmpty then (false, chatHistory)
  else
    (true, chatHistory ++
      [{ sender := senderId, message := message, timestamp := now,
         receivers := receivers, readers := [] }])

/-- Embeds `GroupChat._check_unread_messages` (`src/group_chat.py`): the
records of the chat history whose receivers contain `agentId` and whose
readers do not. -/
def checkUnreadMessages (agentId : String)
    (chatHistory : List MessageRecord) : List MessageRecord :=
  chatHistory.filter
    (fun msg => msg.receivers.contains agentId && !(msg.readers.contains agentId))

/-- Embeds `GroupChat._read_message_records` (`src/group_chat.py`): append
`agentId` to the `readers` list of every record (unconditionally, as
`list.append` does). -/
def readMessageRecords (agentId : String)
    (messageRecords : List MessageRecord) : List MessageRecord :=
  messageRecords.map (fun m => { m with readers := m.readers ++ [agentId] })

/-- Embeds `dict.get` on the agent registry `self.agents`
(`src/group_chat.py`), modelled as an association list in insertion
order. -/
def lookupAgent {β : Type} (agents : List (String × β)) (agentId : String) :
    Option β :=
  (agents.find? (fun kv => kv.1 == agentId)).map (fun kv => kv.2)

/-- Embeds the `else` branch of `GroupChat._send_to_agent`
(`src/group_chat.py`): look the agent up; a missing or `None` handle does
nothing; otherwise await the agent method `run` (modelled by its outcome
`Except Unit String` stored as the handle), and on success post the
response to the chat and mark the input records read, while a raised
exception is caught (`except Exception`) and nothing is posted or marked.
Returns the updated chat history and the updated input records. -/
def sendToAgentSingle (agents : List (String × Option (Except Unit String)))
    (agentId : String) (now : Nat) (chatHistory : List MessageRecord)
    (messageRecords : List MessageRecord) :
    List MessageRecord × List MessageRecord :=
  match lookupAgent agents agentId with
  | none => (chatHistory, messageRecords)
  | some none => (chatHistory, messageRecords)
  | some (some (Except.error _)) => (chatHistory, messageRecords)
  | some (some (Except.ok message)) =>
      ((sendToChat agentId message now chatHistory).2,
       readMessageRecords agentId messageRecords)

/-- Embeds the `"all"` branch of `GroupChat._send_to_agent`
(`src/group_chat.py`): iterate over every key of the agent registry in
order; for each key, spawn a dispatch task to that key (collected here as
the first component) and mark the records read for that key. -/
def sendToAgentAll {α : Type} :
    List (String × α) → List MessageRecord → List String × List MessageRecord
  | [], messageRecords => ([], messageRecords)
  | kv :: rest, messageRecords =>
      let step := sendToAgentAll rest (readMessageRecords kv.1 messageRecords)
      (kv.1 :: step.1, step.2)

/-- Embeds the dict assignment `self.agents[name] = agent`: replace the
value of an existing key in place, otherwise append the new key at the
end (Python dicts preserve insertion order). -/
def setAgent {α : Type} (name : String) (a : α) :
    List (String × α) → List (String × α)
  | [] => [(name, a)]
  | kv :: rest =>
      if kv.1 = name then (name, a) :: rest else kv :: setAgent name a rest

/-- The announcement text posted by `GroupChat.add_agent`
(`src/group_chat.py`). -/
def joinMessage (name : String) : String :=
  "System: " ++ name ++ " has joined the chat. @all"

/-- Embeds `GroupChat.add_agent` (`src/group_chat.py`): insert or replace
the registry mapping for the agent name, then `_send_to_chat("all", ...)`
the join announcement.  Returns the updated registry and chat history. -/
def addAgent {α : Type} (name : String) (a : α) (now : Nat)
    (agents : List (String × Option α)) (chatHistory : List MessageRecord) :
    List (String × Option α) × List MessageRecord :=
  (setAgent name (some a) agents,
   (sendToChat "all" (joinMessage name) now chatHistory).2)

/-- Embeds the `trigger_type`/`trigger_value` pair of `Reminder`
(`src/reminder.py`): `trigger_type == "time"` carries a timestamp,
`trigger_type == "condition"` carries an opaque callable, represented as a
value of the abstract type `π` interpreted by an environment
`eval : π → Nat → Bool`. -/
inductive TriggerValue (π : Type) where
  | time (t : Nat)
  | cond (p : π)
deriving DecidableEq

/-- Embeds the `Reminder` class (`src/reminder.py`): owner, message text,
trigger, identifier and the `is_active` flag (initially `true`). -/
structure Reminder (π : Type) where
  agentId : String
  message : String
  triggerValue : TriggerValue π
  reminderId : String
  isActive : Bool
deriving DecidableEq

/-- Returns whether the reminder is time-kind, the embedding of the test
`reminder.trigger_type == "time"` (`src/reminder.py`). -/
def isTimeKind {π : Type} (r : Reminder π) : Bool :=
  match r.triggerValue with
  | TriggerValue.time _ => true
  | TriggerValue.cond _ => false

/-- Embeds `Reminder.should_trigger` (`src/reminder.py`): an inactive
reminder never triggers; a time reminder triggers when `now` has reached
its timestamp; a condition reminder triggers when its predicate currently
evaluates to `true`. -/
def shouldTrigger {π : Type} (eval : π → Nat → Bool) (now : Nat)
    (r : Reminder π) : Bool :=
  if !r.isActive then false
  else
    match r.triggerValue with
    | TriggerValue.time t => decide (t ≤ now)
    | TriggerValue.cond p => eval p now

/-- The notification text passed to the callback on a firing
(`src/reminder.py`, `_check_reminders`). -/
def reminderMessage {π : Type} (r : Reminder π) : String :=
  "REMINDER for @" ++ r.agentId ++ ": " ++ r.message

/-- Embeds `ReminderManager.cancel_reminder` (`src/reminder.py`): set
`is_active = False` on the first reminder with the given id and return
`true`; return `false` when no reminder matches. -/
def cancelReminder {π : Type} (reminderId : String) :
    List (Reminder π) → Bool × List (Reminder π)
  | [] => (false, [])
  | r :: rest =>
      if r.reminderId = reminderId then (true, { r with isActive := false } :: rest)
      else
        let step := cancelReminder reminderId rest
        (step.1, r :: step.2)

/-- Embeds one iteration of the loop of `ReminderManager._check_reminders`
(`src/reminder.py`): every reminder whose `should_trigger` holds fires (the
callback invocation is recorded as the pair of the tick time and the
reminder), and the time-kind reminders among those that fired are removed
from the collection. -/
def checkReminderTick {π : Type} (eval : π → Nat → Bool) (now : Nat)
    (reminders : List (Reminder π)) :
    List (Nat × Reminder π) × List (Reminder π) :=
  ((reminders.filter (shouldTrigger eval now)).map (fun r => (now, r)),
   reminders.filter (fun r => !(shouldTrigger eval now r && isTimeKind r)))

/-- Runs the scheduler loop of `ReminderManager._check_reminders`
(`src/reminder.py`) for the given sequence of tick times, collecting every
callback invocation. -/
def runTicks {π : Type} (eval : π → Nat → Bool) :
    List Nat → List (Reminder π) →
    List (Nat × Reminder π) × List (Reminder π)
  | [], reminders => ([], reminders)
  | now :: ts, reminders =>
      let tick := checkReminderTick eval now reminders
      let rest := runTicks eval ts tick.2
      (tick.1 ++ rest.1, rest.2)

/-- Sample record used by concrete witnesses: a greeting from the human
mentioning alice. -/
def recAlice : MessageRecord :=
  { sender := "human", message := "hi @alice", timestamp := 0,
    receivers := ["alice"], readers := [] }

/-- The registry as `GroupChat.__init__` plus one registered servant agent. -/
def allAgentsSample : List (String × Option Unit) :=
  [("system", none), ("human", none), ("all", none), ("servant", some ())]

/-- A message from the servant addressed to `@all`. -/
def recAllSample : MessageRecord :=
  { sender := "servant", message := "hello @all", timestamp := 0,
    receivers := ["all"], readers := [] }

/-- A time-kind reminder for alice whose trigger time 3 is in the past at
the first tick. -/
def timeReminderSample : Reminder Bool :=
  { agentId := "alice", message := "follow up", triggerValue := TriggerValue.time 3,
    reminderId := "rid1", isActive := true }

/-- An always-true condition-kind reminder for bob. -/
def condReminderSample : Reminder Bool :=
  { agentId := "bob", message := "check the build", triggerValue := TriggerValue.cond true,
    reminderId := "rid2", isActive := true }

/-- A cancelled time-kind reminder. -/
def cancelledReminderSample : Reminder Bool :=
  { agentId := "carol", message := "old task", triggerValue := TriggerValue.time 0,
    reminderId := "rid3", isActive := false }

/-! Helper lemmas about the mention parser. -/

theorem parseMentionsAux_append_of_ne_at {l r : List Char}
    (h : ∀ c ∈ l, c ≠ '@') :
    parseMentionsAux (l ++ r) = parseMentionsAux r := by
  induction l with
  | nil => rfl
  | cons c l ih =>
      have hc : c ≠ '@' := h c (List.mem_cons_self c l)
      rw [List.cons_append]
      rw [show parseMentionsAux (c :: (l ++ r)) = parseMentionsAux (l ++ r) by
        simp [parseMentionsAux, hc]]
      exact ih (fun x hx => h x (List.mem_cons_of_mem c hx))

theorem parseMentionsAux_wordChars {l : List Char} :
    ∀ t ∈ parseMentionsAux l, t.data ≠ [] ∧ ∀ c ∈ t.data, isWordChar c = true := by
  induction l using parseMentionsAux.induct with
  | case1 => simp [parseMentionsAux]
  | case2 rest hempty ih =>
      rw [show parseMentionsAux ('@' :: rest) = parseMentionsAux rest by
        simp [parseMentionsAux, hempty]]
      exact ih
  | case3 rest hempty ih =>
      rw [show parseMentionsAux ('@' :: rest)
          = String.mk (rest.takeWhile isWordChar) ::
            parseMentionsAux (rest.dropWhile isWordChar) by
        simp [parseMentionsAux, hempty]]
      intro t ht
      rcases List.mem_cons.mp ht with h1 | h2
      · subst h1
        refine ⟨by simpa [List.isEmpty_iff] using hempty, ?_⟩
        intro c hcmem
        exact List.mem_takeWhile_imp hcmem
      · exact ih t h2
  | case4 c rest hc ih =>
      rw [show parseMentionsAux (c :: rest) = parseMentionsAux rest by
        simp [parseMentionsAux, hc]]
      exact ih

theorem parseMentionsAux_eq_nil_iff {l : List Char} :
    parseMentionsAux l = [] ↔
      ¬ ∃ l₁ c l₂, l = l₁ ++ '@' :: c :: l₂ ∧ isWordChar c = true := by
  induction l using parseMentionsAux.induct with
  | case1 =>
      simp only [parseMentionsAux, true_iff]
      rintro ⟨l₁, c, l₂, heq, hw⟩
      exact absurd heq.symm (by simp)
  | case2 rest hempty ih =>
      rw [show parseMentionsAux ('@' :: rest) = parseMentionsAux rest by
        simp [parseMentionsAux, hempty]]
      rw [ih]
      constructor
      · rintro hno ⟨l₁, c, l₂, heq, hw⟩
        cases l₁ with
        | nil =>
            simp only [List.nil_append, List.cons.injEq] at heq
            rcases heq with ⟨_, heq2⟩
            rw [heq2] at hempty
            simp [List.takeWhile_cons_of_pos hw] at hempty
        | cons a l₁ =>
            simp only [List.cons_append, List.cons.injEq] at heq
            exact hno ⟨l₁, c, l₂, heq.2, hw⟩
      · rintro hno ⟨l₁, c, l₂, heq, hw⟩
        exact hno ⟨'@' :: l₁, c, l₂, by rw [heq]; rfl, hw⟩
  | case3 rest hempty ih =>
      rw [show parseMentionsAux ('@' :: rest)
          = String.mk (rest.takeWhile isWordChar) ::
            parseMentionsAux (rest.dropWhile isWordChar) by
        simp [parseMentionsAux, hempty]]
      have hex : ∃ l₁ c l₂, '@' :: rest = l₁ ++ '@' :: c :: l₂ ∧ isWordChar c = true := by
        cases rest with
        | nil => simp at hempty
        | cons d rest' =>
            by_cases hd : isWordChar d = true
            · exact ⟨[], d, rest', rfl, hd⟩
            · rw [List.takeWhile_cons_of_neg (by simp [hd])] at hempty
              simp at hempty
      constructor
      · intro h
        exact absurd h (by simp)
      · intro h
        exact absurd hex h
  | case4 c rest hc ih =>
      rw [show parseMentionsAux (c :: rest) = parseMentionsAux rest by
        simp [parseMentionsAux, hc]]
      rw [ih]
      constructor
      · rintro hno ⟨l₁, d, l₂, heq, hw⟩
        cases l₁ with
        | nil =>
            simp only [List.nil_append, List.cons.injEq] at heq
            exact hc heq.1
        | cons a l₁ =>
            simp only [List.cons_append, List.cons.injEq] at heq
            exact hno ⟨l₁, d, l₂, heq.2, hw⟩
      · rintro hno ⟨l₁, d, l₂, heq, hw⟩
        exact hno ⟨c :: l₁, d, l₂, by rw [heq]; rfl, hw⟩

/-- Claim C7 counterexample: the parser is `re.findall`, which returns every
match in order, so a message mentioning `@bob` twice yields the token
`"bob"` twice — the result is not duplicate-free. -/
theorem parseMentions_has_duplicates :
    parseMentions "@bob @bob" = ["bob", "bob"]
    ∧ ¬ (parseMentions "@bob @bob").Nodup := by
  have h : parseMentions "@bob @bob" = ["bob", "bob"] := by
    simp [parseMentions, parseMentionsAux, isWordChar]
  exact ⟨h, by rw [h]; decide⟩

/-- Claim C7 (amended): every token returned by the mention parser is a nonempty
run of word characters (the `@` stripped), and the result is empty exactly
when the text has no `@` immediately followed by a word character; the
parser is a pure total function.  (It returns the list of all matches in
order, possibly with duplicates, not a duplicate-free set.) -/
theorem parseMentions_tokens_spec (s : String) :
    (∀ t ∈ parseMentions s, t.data ≠ [] ∧ ∀ c ∈ t.data, isWordChar c = true)
    ∧ (parseMentions s = [] ↔
        ¬ ∃ l₁ c l₂, s.data = l₁ ++ '@' :: c :: l₂ ∧ isWordChar c = true) :=
  ⟨parseMentionsAux_wordChars, parseMentionsAux_eq_nil_iff⟩

/-- Claim C7 witness: the amended parser theorem applied to the example
string. -/
theorem parseMentions_tokens_spec_witness :
    (∀ t ∈ parseMentions "hi @bob and @alice",
        t.data ≠ [] ∧ ∀ c ∈ t.data, isWordChar c = true)
    ∧ (parseMentions "hi @bob and @alice" = [] ↔
        ¬ ∃ l₁ c l₂, "hi @bob and @alice".data = l₁ ++ '@' :: c :: l₂
            ∧ isWordChar c = true) :=
  parseMentions_tokens_spec "hi @bob and @alice"

/-- Claim C1: a record of the chat history is unread for `r` exactly when `r` is
among its receivers and not among its readers, and the unread sequence is
a sublist of the history (log order, oldest first). -/
theorem unread_iff_mem_receivers_not_readers (r : String)
    (chatHistory : List MessageRecord) (m : MessageRecord)
    (hm : m ∈ chatHistory) :
    (m ∈ checkUnreadMessages r chatHistory ↔ (r ∈ m.receivers ∧ r ∉ m.readers))
    ∧ List.Sublist (checkUnreadMessages r chatHistory) chatHistory := by
  refine ⟨?_, List.filter_sublist _⟩
  simp [checkUnreadMessages, List.mem_filter, hm, List.contains]

/-- Claim C1 witness: the unread characterization at a concrete one-record log. -/
theorem unread_iff_mem_receivers_not_readers_witness :
    recAlice ∈ [recAlice]
    ∧ ((recAlice ∈ checkUnreadMessages "alice" [recAlice] ↔
          ("alice" ∈ recAlice.receivers ∧ "alice" ∉ recAlice.readers))
        ∧ List.Sublist (checkUnreadMessages "alice" [recAlice]) [recAlice]) :=
  ⟨by decide,
   unread_iff_mem_receivers_not_readers "alice" [recAlice] recAlice (by decide)⟩

/-- Claim C2 counterexample: `_read_message_records` appends unconditionally, so
marking the same record read twice for `"alice"` puts `"alice"` in its
`readers` list twice — the result differs from marking once. -/
theorem readMessageRecords_not_idempotent :
    readMessageRecords "alice" (readMessageRecords "alice" [recAlice])
        ≠ readMessageRecords "alice" [recAlice]
    ∧ (readMessageRecords "alice" (readMessageRecords "alice" [recAlice])).map
        (fun m => m.readers) = [["alice", "alice"]] := by
  constructor
  · decide
  · decide

/-- Claim C2 (amended): mark-read is not idempotent on the `readers` lists (the
identifier is appended once per call), but it is idempotent up to set
membership: after one and after two applications the `readers` list of each record
list holds the same set of identifiers. -/
theorem readMessageRecords_readers_same_members (a : String)
    (rs : List MessageRecord) :
    List.Forall₂ (fun m₁ m₂ => ∀ x, x ∈ m₁.readers ↔ x ∈ m₂.readers)
      (readMessageRecords a (readMessageRecords a rs))
      (readMessageRecords a rs) := by
  induction rs with
  | nil => exact List.Forall₂.nil
  | cons m rs ih =>
      simp only [readMessageRecords, List.map_cons] at ih ⊢
      refine List.Forall₂.cons ?_ ih
      intro x
      simp [List.mem_append, or_assoc]

/-- Claim C2 witness: the membership-idempotence instantiated at a concrete
record list. -/
theorem readMessageRecords_readers_same_members_witness :
    List.Forall₂ (fun m₁ m₂ => ∀ x, x ∈ m₁.readers ↔ x ∈ m₂.readers)
      (readMessageRecords "alice" (readMessageRecords "alice" [recAlice]))
      (readMessageRecords "alice" [recAlice]) :=
  readMessageRecords_readers_same_members "alice" [recAlice]

/-- Claim C8: posting a message whose body parses to no mentions is rejected —
`_send_to_chat` returns `false` and the chat history is unchanged; a body
with at least one mention is accepted and its record is appended at the
end of the history. -/
theorem sendToChat_spec (senderId body : String) (now : Nat)
    (hist : List MessageRecord) :
    (parseMentions body = [] → sendToChat senderId body now hist = (false, hist))
    ∧ (parseMentions body ≠ [] →
        sendToChat senderId body now hist =
          (true, hist ++ [{ sender := senderId, message := body, timestamp := now,
                            receivers := parseMentions body, readers := [] }])) := by
  constructor
  · intro h
    simp [sendToChat, h]
  · intro h
    simp [sendToChat, List.isEmpty_iff, h]

/-- Claim C8 witness: a mention-free body is rejected and a mentioning body is
appended, at concrete inputs. -/
theorem sendToChat_spec_witness :
    (parseMentions "no mentions" = []
      ∧ sendToChat "human" "no mentions" 0 [] = (false, []))
    ∧ (parseMentions "hi @alice" ≠ []
      ∧ sendToChat "human" "hi @alice" 0 [] = (true, [recAlice])) := by
  have h1 : parseMentions "no mentions" = [] := by
    simp [parseMentions, parseMentionsAux, isWordChar]
  have h2 : parseMentions "hi @alice" = ["alice"] := by
    simp [parseMentions, parseMentionsAux, isWordChar]
  refine ⟨⟨h1, (sendToChat_spec "human" "no mentions" 0 []).1 h1⟩,
          ⟨by rw [h2]; decide, ?_⟩⟩
  rw [(sendToChat_spec "human" "hi @alice" 0 []).2 (by rw [h2]; decide), h2]
  rfl

/-- Claim C3 counterexample: when the agent method `run` raises, `_send_to_agent`
catches the exception after the `await`, so `_read_message_records` is
never reached — the input records are NOT marked read. -/
theorem sendToAgent_error_not_marked_read :
    sendToAgentSingle [("alice", some (Except.error ()))] "alice" 0
        [recAlice] [recAlice] = ([recAlice], [recAlice])
    ∧ "alice" ∉ recAlice.readers := by
  exact ⟨rfl, by decide⟩

/-- Claim C3 (amended): when the respond operation of the registered agent raises,
the dispatch returns normally (the exception is caught), posts nothing to
the chat history and leaves the input records unchanged — in particular
they are not marked read, so they stay unread; only a successful dispatch
marks them read, after which they are no longer unread. -/
theorem sendToAgent_error_spec
    (agents : List (String × Option (Except Unit String)))
    (agentId : String) (e : Unit) (now : Nat)
    (hist records : List MessageRecord)
    (h : lookupAgent agents agentId = some (some (Except.error e))) :
    sendToAgentSingle agents agentId now hist records = (hist, records)
    ∧ checkUnreadMessages agentId (readMessageRecords agentId records) = [] := by
  constructor
  · simp [sendToAgentSingle, h]
  · rw [checkUnreadMessages, List.filter_eq_nil_iff]
    intro a ha
    rcases List.mem_map.mp ha with ⟨m, hm, rfl⟩
    simp [List.contains]

/-- Claim C3 witness: the failure-dispatch theorem at a concrete registry whose
only agent raises. -/
theorem sendToAgent_error_spec_witness :
    lookupAgent [("alice", some (Except.error () : Except Unit String))] "alice"
        = some (some (Except.error ()))
    ∧ (sendToAgentSingle [("alice", some (Except.error ()))] "alice" 0
          [recAlice] [recAlice] = ([recAlice], [recAlice])
        ∧ checkUnreadMessages "alice" (readMessageRecords "alice" [recAlice]) = []) :=
  ⟨rfl, sendToAgent_error_spec [("alice", some (Except.error ()))] "alice" ()
      0 [recAlice] [recAlice] rfl⟩

/-- Claim C4 counterexample: the `"all"` branch iterates over every key of the
agent registry — which contains the literal key `"all"` and the sender —
so the record is marked read for the literal token `"all"` and for the
sender `"servant"`, and a dispatch is spawned for both as well. -/
theorem sendToAgentAll_marks_literal_all :
    (sendToAgentAll allAgentsSample [recAllSample]).2.map (fun m => m.readers)
      = [["system", "human", "all", "servant"]]
    ∧ (sendToAgentAll allAgentsSample [recAllSample]).1
      = ["system", "human", "all", "servant"] := by
  constructor
  · decide
  · decide

/-- Claim C4 (amended): delivering records via the `"all"` branch spawns a
dispatch for every key of the registry in insertion order — including the
literal key `"all"` and the sender of the message — and appends every such key
to the `readers` list of each record. -/
theorem sendToAgentAll_spec {α : Type} (agents : List (String × α))
    (records : List MessageRecord) :
    (sendToAgentAll agents records).1 = agents.map Prod.fst
    ∧ (sendToAgentAll agents records).2
        = records.map
            (fun m => { m with readers := m.readers ++ agents.map Prod.fst }) := by
  induction agents generalizing records with
  | nil =>
      refine ⟨rfl, ?_⟩
      simp [sendToAgentAll]
  | cons kv rest ih =>
      refine ⟨?_, ?_⟩
      · simp only [sendToAgentAll, List.map_cons]
        rw [(ih (readMessageRecords kv.1 records)).1]
      · simp only [sendToAgentAll, List.map_cons]
        rw [(ih (readMessageRecords kv.1 records)).2]
        rw [readMessageRecords, List.map_map]
        apply List.map_congr_left
        intro m hm
        simp [List.append_assoc]

/-- Claim C4 witness: the `"all"` delivery theorem at the sample registry. -/
theorem sendToAgentAll_spec_witness :
    (sendToAgentAll allAgentsSample [recAllSample]).1
        = allAgentsSample.map Prod.fst
    ∧ (sendToAgentAll allAgentsSample [recAllSample]).2
        = [recAllSample].map
            (fun m => { m with readers := m.readers ++ allAgentsSample.map Prod.fst }) :=
  sendToAgentAll_spec allAgentsSample [recAllSample]

/-- The join announcement posted by `add_agent` parses to the single
mention `"all"` whenever the agent name contains no `'@'`. -/
theorem parseMentions_joinMessage {name : String}
    (h : ∀ c ∈ name.data, c ≠ '@') :
    parseMentions (joinMessage name) = ["all"] := by
  have htail : " has joined the chat. @all".data
      = " has joined the chat. ".data ++ ('@' :: 'a' :: 'l' :: 'l' :: []) := by
    decide
  have hsplit : (joinMessage name).data
      = ("System: ".data ++ (name.data ++ " has joined the chat. ".data))
        ++ ('@' :: 'a' :: 'l' :: 'l' :: []) := by
    simp [joinMessage, htail]
  have hA : ∀ c ∈ "System: ".data, c ≠ '@' := by decide
  have hB : ∀ c ∈ " has joined the chat. ".data, c ≠ '@' := by decide
  have hno : ∀ c ∈ ("System: ".data
      ++ (name.data ++ " has joined the chat. ".data)), c ≠ '@' := by
    intro c hc
    rcases List.mem_append.mp hc with h1 | h2
    · exact hA c h1
    · rcases List.mem_append.mp h2 with h3 | h4
      · exact h c h3
      · exact hB c h4
  calc parseMentions (joinMessage name)
      = parseMentionsAux (("System: ".data
          ++ (name.data ++ " has joined the chat. ".data))
          ++ ('@' :: 'a' :: 'l' :: 'l' :: [])) := by
        rw [parseMentions, hsplit]
    _ = parseMentionsAux ('@' :: 'a' :: 'l' :: 'l' :: []) :=
        parseMentionsAux_append_of_ne_at hno
    _ = ["all"] := by simp [parseMentionsAux, isWordChar]

/-- Claim C9 counterexample: `add_agent` itself posts a join announcement — the
chat history gains one record, sent by `"all"` to `@all`. -/
theorem addAgent_appends_record :
    (addAgent "servant" () 0
        [("system", (none : Option Unit)), ("human", none), ("all", none)] []).2
      = [{ sender := "all", message := joinMessage "servant", timestamp := 0,
           receivers := ["all"], readers := [] }]
    ∧ (addAgent "servant" () 0
        [("system", (none : Option Unit)), ("human", none), ("all", none)] []).2
      ≠ [] := by
  have hp : parseMentions (joinMessage "servant") = ["all"] :=
    parseMentions_joinMessage (by decide)
  constructor
  · simp [addAgent, sendToChat, hp]
  · simp [addAgent, sendToChat, hp]

/-- Claim C9 (amended): registering an agent inserts or replaces the registry
mapping AND posts a join announcement: exactly one record is appended to
the chat history, with sender `"all"`, the join text as body, and (for a
name without `'@'`) receivers `["all"]`. -/
theorem addAgent_spec {α : Type} (name : String) (a : α) (now : Nat)
    (agents : List (String × Option α)) (hist : List MessageRecord)
    (h : ∀ c ∈ name.data, c ≠ '@') :
    addAgent name a now agents hist =
      (setAgent name (some a) agents,
       hist ++ [{ sender := "all", message := joinMessage name, timestamp := now,
                  receivers := ["all"], readers := [] }]) := by
  have hp := parseMentions_joinMessage h
  simp [addAgent, sendToChat, hp]

/-- Claim C9 witness: registration at a concrete registry, showing the appended
join record. -/
theorem addAgent_spec_witness :
    (∀ c ∈ "servant".data, c ≠ '@')
    ∧ addAgent "servant" () 0
        [("system", (none : Option Unit)), ("human", none), ("all", none)] []
      = (setAgent "servant" (some ())
           [("system", none), ("human", none), ("all", none)],
         [] ++ [{ sender := "all", message := joinMessage "servant", timestamp := 0,
                  receivers := ["all"], readers := [] }]) :=
  ⟨by decide, addAgent_spec "servant" () 0
      [("system", none), ("human", none), ("all", none)] [] (by decide)⟩

/-! Helper lemmas about the reminder scheduler. -/

theorem shouldTrigger_isActive {π : Type} (eval : π → Nat → Bool) (now : Nat)
    (r : Reminder π) (h : shouldTrigger eval now r = true) :
    r.isActive = true := by
  cases hb : r.isActive with
  | true => rfl
  | false => simp [shouldTrigger, hb] at h

theorem runTicks_not_mem {π : Type} (eval : π → Nat → Bool) (r : Reminder π) :
    ∀ times rs, r ∉ rs →
      (∀ q ∈ (runTicks eval times rs).1, q.2 ≠ r)
      ∧ r ∉ (runTicks eval times rs).2 := by
  intro times
  induction times with
  | nil =>
      intro rs h
      exact ⟨by simp [runTicks], by simpa [runTicks] using h⟩
  | cons t ts ih =>
      intro rs h
      have h2 : r ∉ rs.filter (fun x => !(shouldTrigger eval t x && isTimeKind x)) :=
        fun hx => h (List.mem_filter.mp hx).1
      constructor
      · intro q hq
        simp only [runTicks] at hq
        rcases List.mem_append.mp hq with h1 | h1
        · simp only [checkReminderTick] at h1
          rcases List.mem_map.mp h1 with ⟨x, hx, rfl⟩
          intro hxr
          exact h (hxr ▸ (List.mem_filter.mp hx).1)
        · exact (ih _ h2).1 q h1
      · simp only [runTicks]
        exact (ih _ h2).2

theorem runTicks_fired_active {π : Type} (eval : π → Nat → Bool) :
    ∀ times rs, ∀ q ∈ (runTicks eval times rs).1, q.2.isActive = true := by
  intro times
  induction times with
  | nil => intro rs q hq; simp [runTicks] at hq
  | cons t ts ih =>
      intro rs q hq
      simp only [runTicks] at hq
      rcases List.mem_append.mp hq with h1 | h1
      · simp only [checkReminderTick] at h1
        rcases List.mem_map.mp h1 with ⟨x, hx, rfl⟩
        exact shouldTrigger_isActive eval t x (List.mem_filter.mp hx).2
      · exact ih _ q h1

theorem runTicks_inactive_mem {π : Type} (eval : π → Nat → Bool) :
    ∀ times rs (r : Reminder π), r ∈ rs → r.isActive = false →
      r ∈ (runTicks eval times rs).2 := by
  intro times
  induction times with
  | nil => intro rs r hr _; simpa [runTicks] using hr
  | cons t ts ih =>
      intro rs r hr hact
      simp only [runTicks]
      apply ih
      · apply List.mem_filter.mpr
        refine ⟨hr, ?_⟩
        simp [shouldTrigger, hact]
      · exact hact

theorem cancelReminder_true_iff {π : Type} (rid : String)
    (rs : List (Reminder π)) :
    (cancelReminder rid rs).1 = true ↔ ∃ r ∈ rs, r.reminderId = rid := by
  induction rs with
  | nil => simp [cancelReminder]
  | cons r rest ih =>
      by_cases h : r.reminderId = rid
      · constructor
        · intro hx
          exact ⟨r, List.mem_cons_self r rest, h⟩
        · intro hx
          simp [cancelReminder, h]
      · rw [show (cancelReminder rid (r :: rest)).1 = (cancelReminder rid rest).1 by
          simp [cancelReminder, h]]
        rw [ih]
        constructor
        · rintro ⟨x, hx, hid⟩
          exact ⟨x, List.mem_cons_of_mem r hx, hid⟩
        · rintro ⟨x, hx, hid⟩
          rcases List.mem_cons.mp hx with rfl | hx2
          · exact absurd hid h
          · exact ⟨x, hx2, hid⟩

theorem cancelReminder_found {π : Type} (rid : String) (rs : List (Reminder π))
    (h : (cancelReminder rid rs).1 = true) :
    ∃ r₀ ∈ (cancelReminder rid rs).2,
      r₀.reminderId = rid ∧ r₀.isActive = false := by
  induction rs with
  | nil => simp [cancelReminder] at h
  | cons r rest ih =>
      by_cases hr : r.reminderId = rid
      · refine ⟨{ r with isActive := false }, ?_, ?_, rfl⟩
        · simp [cancelReminder, hr]
        · simpa using hr
      · have h2 : (cancelReminder rid rest).1 = true := by
          simpa [cancelReminder, hr] using h
        rcases ih h2 with ⟨r₀, hmem, hid, hact⟩
        refine ⟨r₀, ?_, hid, hact⟩
        rw [show (cancelReminder rid (r :: rest)).2
            = r :: (cancelReminder rid rest).2 by simp [cancelReminder, hr]]
        exact List.mem_cons_of_mem r hmem

theorem cond_reminder_fires_every_tick {π : Type} (eval : π → Nat → Bool)
    (r : Reminder π) (p : π) (hact : r.isActive = true)
    (htv : r.triggerValue = TriggerValue.cond p) (hp : ∀ n, eval p n = true) :
    ∀ times rs, r ∈ rs → ∀ u ∈ times, (u, r) ∈ (runTicks eval times rs).1 := by
  intro times
  induction times with
  | nil => intro rs hr u hu; simp at hu
  | cons t ts ih =>
      intro rs hr u hu
      have hst : shouldTrigger eval t r = true := by
        simp [shouldTrigger, hact, htv, hp]
      have hkeep : r ∈ rs.filter
          (fun x => !(shouldTrigger eval t x && isTimeKind x)) := by
        apply List.mem_filter.mpr
        refine ⟨hr, ?_⟩
        simp [isTimeKind, htv]
      simp only [runTicks]
      rcases List.mem_cons.mp hu with rfl | hu2
      · apply List.mem_append.mpr
        left
        simp only [checkReminderTick]
        exact List.mem_map.mpr ⟨r, List.mem_filter.mpr ⟨hr, hst⟩, rfl⟩
      · apply List.mem_append.mpr
        right
        exact ih _ hkeep u hu2

/-- Claim C5: an active time-kind reminder whose trigger time has passed by the
first tick fires exactly once across any nonempty sequence of ticks, and
is absent from the reminder collection afterwards.  (The reminder is
assumed to occur exactly once in the collection, matching a single Python
object.) -/
theorem time_reminder_fires_exactly_once {π : Type} [DecidableEq π]
    (eval : π → Nat → Bool) (r : Reminder π) (t : Nat)
    (rs : List (Reminder π)) (t₀ : Nat) (ts : List Nat)
    (hocc : (rs.filter (fun x => decide (x = r))).length = 1)
    (hact : r.isActive = true) (htv : r.triggerValue = TriggerValue.time t)
    (ht : t ≤ t₀) :
    ((runTicks eval (t₀ :: ts) rs).1.filter
        (fun q => decide (q.2 = r))).length = 1
    ∧ r ∉ (runTicks eval (t₀ :: ts) rs).2 := by
  have hst : shouldTrigger eval t₀ r = true := by
    simp [shouldTrigger, hact, htv, ht]
  have htime : isTimeKind r = true := by simp [isTimeKind, htv]
  have hnot : r ∉ rs.filter (fun x => !(shouldTrigger eval t₀ x && isTimeKind x)) := by
    intro hx
    have := (List.mem_filter.mp hx).2
    simp [hst, htime] at this
  have hrest := runTicks_not_mem eval r ts _ hnot
  constructor
  · simp only [runTicks, checkReminderTick, List.filter_append, List.length_append]
    have h1 : (((rs.filter (shouldTrigger eval t₀)).map (fun x => (t₀, x))).filter
        (fun q => decide (q.2 = r))).length = 1 := by
      rw [List.filter_map]
      rw [List.length_map]
      rw [List.filter_filter]
      simp only [Function.comp]
      have hcongr : rs.filter
          (fun a => decide ((t₀, a).2 = r) && shouldTrigger eval t₀ a)
          = rs.filter (fun a => decide (a = r)) := by
        apply List.filter_congr
        intro a ha
        by_cases har : a = r
        · subst har
          simp [hst]
        · simp [har]
      rw [hcongr]
      exact hocc
    have h2 : (((runTicks eval ts
        (rs.filter (fun x => !(shouldTrigger eval t₀ x && isTimeKind x)))).1).filter
          (fun q => decide (q.2 = r))).length = 0 := by
      rw [List.length_eq_zero]
      rw [List.filter_eq_nil_iff]
      intro q hq
      simp only [decide_eq_true_eq]
      exact hrest.1 q hq
    rw [h1, h2]
  · simp only [runTicks, checkReminderTick]
    exact hrest.2

/-- Claim C5 witness: the one-shot firing theorem run on three concrete ticks. -/
theorem time_reminder_fires_exactly_once_witness :
    (([timeReminderSample].filter
        (fun x => decide (x = timeReminderSample))).length = 1
      ∧ timeReminderSample.isActive = true
      ∧ timeReminderSample.triggerValue = TriggerValue.time 3
      ∧ 3 ≤ 5)
    ∧ (((runTicks (fun b _ => b) [5, 6, 7] [timeReminderSample]).1.filter
          (fun q => decide (q.2 = timeReminderSample))).length = 1
        ∧ timeReminderSample ∉
            (runTicks (fun b _ => b) [5, 6, 7] [timeReminderSample]).2) :=
  ⟨⟨by decide, rfl, rfl, by decide⟩,
   time_reminder_fires_exactly_once (fun b _ => b) timeReminderSample 3
     [timeReminderSample] 5 [6, 7] (by decide) rfl rfl (by decide)⟩

/-- Claim C6: `cancel_reminder` returns `true` exactly when some reminder with
the given id is in the collection; an active always-true condition-kind
reminder fires on every tick while uncancelled; and after a successful
cancel the cancelled reminder (now inactive) never fires on any
subsequent tick. -/
theorem cancel_reminder_spec {π : Type} (eval : π → Nat → Bool)
    (rid : String) (rs : List (Reminder π)) :
    ((cancelReminder rid rs).1 = true ↔ ∃ r ∈ rs, r.reminderId = rid)
    ∧ (∀ r ∈ rs, ∀ p, r.isActive = true →
        r.triggerValue = TriggerValue.cond p → (∀ n, eval p n = true) →
        ∀ times, ∀ u ∈ times, (u, r) ∈ (runTicks eval times rs).1)
    ∧ ((cancelReminder rid rs).1 = true →
        ∃ r₀ ∈ (cancelReminder rid rs).2,
          r₀.reminderId = rid ∧ r₀.isActive = false ∧
          ∀ times, ∀ q ∈ (runTicks eval times (cancelReminder rid rs).2).1,
            q.2 ≠ r₀) := by
  refine ⟨cancelReminder_true_iff rid rs, ?_, ?_⟩
  · intro r hr p hact htv hp times u hu
    exact cond_reminder_fires_every_tick eval r p hact htv hp times rs hr u hu
  · intro h
    rcases cancelReminder_found rid rs h with ⟨r₀, hmem, hid, hact⟩
    refine ⟨r₀, hmem, hid, hact, ?_⟩
    intro times q hq hqr
    have hq2 := runTicks_fired_active eval times _ q hq
    rw [hqr, hact] at hq2
    cases hq2

/-- Claim C6 witness: the cancel theorem at a one-reminder collection whose
condition is literally `true`. -/
theorem cancel_reminder_spec_witness :
    ((cancelReminder "rid2" [condReminderSample]).1 = true ↔
        ∃ r ∈ [condReminderSample], r.reminderId = "rid2")
    ∧ (∀ r ∈ [condReminderSample], ∀ p : Bool, r.isActive = true →
        r.triggerValue = TriggerValue.cond p →
        (∀ n, (fun b (_ : Nat) => b) p n = true) →
        ∀ times, ∀ u ∈ times,
          (u, r) ∈ (runTicks (fun b _ => b) times [condReminderSample]).1)
    ∧ ((cancelReminder "rid2" [condReminderSample]).1 = true →
        ∃ r₀ ∈ (cancelReminder "rid2" [condReminderSample]).2,
          r₀.reminderId = "rid2" ∧ r₀.isActive = false ∧
          ∀ times, ∀ q ∈ (runTicks (fun b _ => b) times
              (cancelReminder "rid2" [condReminderSample]).2).1,
            q.2 ≠ r₀) :=
  cancel_reminder_spec (fun b _ => b) "rid2" [condReminderSample]

/-- Claim C10: a scheduler tick removes a reminder only when it triggered that
tick and is time-kind (hence was active); an inactive (cancelled) reminder
of either kind survives every tick of any run. -/
theorem tick_removes_only_fired_time {π : Type} (eval : π → Nat → Bool)
    (rs : List (Reminder π)) :
    (∀ now r, r ∈ rs → r ∉ (checkReminderTick eval now rs).2 →
        shouldTrigger eval now r = true ∧ isTimeKind r = true
        ∧ r.isActive = true)
    ∧ (∀ times r, r ∈ rs → r.isActive = false →
        r ∈ (runTicks eval times rs).2) := by
  constructor
  · intro now r hr hnot
    have hk : ¬ ((!(shouldTrigger eval now r && isTimeKind r)) = true) := by
      intro hk
      exact hnot (List.mem_filter.mpr ⟨hr, hk⟩)
    have hand : (shouldTrigger eval now r && isTimeKind r) = true := by
      simpa using hk
    rcases Bool.and_eq_true_iff.mp hand with ⟨h1, h2⟩
    exact ⟨h1, h2, shouldTrigger_isActive eval now r h1⟩
  · intro times r hr hact
    exact runTicks_inactive_mem eval times rs r hr hact

/-- Claim C10 witness: a cancelled reminder is still in the collection after two
concrete ticks. -/
theorem tick_removes_only_fired_time_witness :
    cancelledReminderSample ∈
      (runTicks (fun b _ => b) [0, 1] [cancelledReminderSample]).2 :=
  (tick_removes_only_fired_time (fun b _ => b) [cancelledReminderSample]).2
    [0, 1] cancelledReminderSample (List.mem_cons_self _ _) rfl
